import Mathlib

/-!
Verification of the `rtclient` realtime-API client library.

The development shallowly embeds the Python sources:
  * `rtclient/util/message_queue.py` (`MessageQueue`, `MessageQueueWithError`)
  * `rtclient/util/id_generator.py` (`generate_id`)
  * `rtclient/__init__.py` (`SharedEndQueue`, `RTAudioContent`,
    `RTFunctionCallItem`, `RTResponse`, `RTClient.configure`,
    `RTClient.generate_response`)

Asynchronous behaviour is embedded in two complementary ways:
  * a multi-waiter view of the read loop (`poll_receive_run`) for the
    demultiplexer guarantees, and a transition system (`PollStep`) for the
    single-reader invariant of `MessageQueue.receive` / `_poll_receive`;
  * a sequential single-consumer view (`mq_receive` / `mqe_receive`) for the
    entity state machines, which in the library always interact with the
    queue as one logical consumer at a time.
-/

namespace RtClient

/-! ## `MessageQueue` (message_queue.py, class MessageQueue)

A waiter is a registered `(predicate, future)` pair from
`waiting_receivers`; we identify the future by a numeric id and record the
value it is resolved with in a resolution list `(id, value)`. -/

/-- `MessageQueue._find_and_remove`: scan `_stored_messages` front to back,
pop and return the first message satisfying the predicate. -/
def find_and_remove {M : Type} (p : M → Bool) : List M → Option M × List M
  | [] => (none, [])
  | m :: rest =>
    if p m then (some m, rest)
    else
      let (r, rest') := find_and_remove p rest
      (r, m :: rest')

/-- `MessageQueue._notify_receiver`: offer `m` to the first waiter whose
predicate matches (removing that waiter, result `some id`); if none
matches, `_push_back` the message onto the stored buffer (result `none`).
Returns (stored', waiters', delivered-waiter). -/
def notify_receiver {M : Type} (m : M) (stored : List M) :
    List (Nat × (M → Bool)) → List M × List (Nat × (M → Bool)) × Option Nat
  | [] => (stored ++ [m], [], none)
  | (i, p) :: rest =>
    if p m then (stored, rest, some i)
    else
      let (st', ws', r) := notify_receiver m stored rest
      (st', (i, p) :: ws', r)

/-- `MessageQueue._notify_end_of_stream`: resolve every outstanding waiter
with "no message" (`None`); the caller clears the waiter list. -/
def notify_end_of_stream {M : Type} : List (Nat × (M → Bool)) → List (Nat × Option M)
  | [] => []
  | (i, _) :: rest => (i, none) :: notify_end_of_stream rest

/-- `MessageQueueWithError._notify_error`: resolve every outstanding waiter
with the error message, ignoring the waiter's own predicate; the caller
clears the waiter list. -/
def notify_error {M : Type} (e : M) : List (Nat × (M → Bool)) → List (Nat × M)
  | [] => []
  | (i, _) :: rest => (i, e) :: notify_error e rest

/-- State of a `MessageQueue` as seen by the read loop: the stored buffer
and the registered waiters. -/
structure QS (M : Type) where
  stored : List M
  waiters : List (Nat × (M → Bool))

/-- The body of `MessageQueue._poll_receive`: repeatedly pull one message
from the transport (modelled as the list of messages it will deliver before
end-of-stream). A pulled message is offered to the waiters
(`_notify_receiver`); the loop exits when no waiters remain or at
end-of-stream (which resolves all waiters with `None` and clears them).
Returns (final queue state, resolutions, unread remainder of transport). -/
def poll_receive_run {M : Type} :
    List M → QS M → QS M × List (Nat × Option M) × List M
  | [], s => (⟨s.stored, []⟩, notify_end_of_stream s.waiters, [])
  | m :: rest, s =>
    let (st', ws', r) := notify_receiver m s.stored s.waiters
    let res0 : List (Nat × Option M) :=
      match r with
      | some i => [(i, some m)]
      | none => []
    if ws'.isEmpty then (⟨st', ws'⟩, res0, rest)
    else
      let (s', res, tr) := poll_receive_run rest ⟨st', ws'⟩
      (s', res0 ++ res, tr)

/-- The messages actually delivered (with a message, not `None`) among a
resolution list. -/
def delivered {M : Type} (res : List (Nat × Option M)) : List M :=
  res.filterMap (·.2)

/-- `MessageQueue.receive` specialised to a single logical consumer, the
way every entity stream in `rtclient/__init__.py` uses the queue: pull
messages from the transport, buffering the ones the predicate rejects,
until a match or end-of-stream.  This is `receive` + `_poll_receive` with
exactly one registered waiter. -/
def pull_loop {M : Type} (p : M → Bool) : List M → List M → Option M × List M × List M
  | stored, [] => (none, stored, [])
  | stored, m :: rest =>
    if p m then (some m, stored, rest)
    else pull_loop p (stored ++ [m]) rest

/-- `MessageQueue.receive` (single-consumer view): first scan the stored
buffer (`_find_and_remove`); on a miss, run the read loop until the
predicate matches or the transport is exhausted. -/
def mq_receive {M : Type} (p : M → Bool) (stored transport : List M) :
    Option M × List M × List M :=
  match find_and_remove p stored with
  | (some m, stored') => (some m, stored', transport)
  | (none, _) => pull_loop p stored transport

/-- Sequential state of a `MessageQueueWithError`: the latched error
(`_error`), the stored buffer, and the unread transport. -/
structure EQState (M : Type) where
  error : Option M
  stored : List M
  transport : List M
  deriving DecidableEq, Repr

/-- `MessageQueueWithError.receive` (single-consumer view): if an error is
latched, return it immediately without touching the underlying queue;
otherwise receive with the predicate widened by the error predicate and
latch the result if it is an error. -/
def mqe_receive {M : Type} (errP p : M → Bool) (s : EQState M) :
    Option M × EQState M :=
  match s.error with
  | some e => (some e, s)
  | none =>
    match mq_receive (fun m => p m || errP m) s.stored s.transport with
    | (some m, stored', transport') =>
      if errP m then (some m, ⟨some m, stored', transport'⟩)
      else (some m, ⟨none, stored', transport'⟩)
    | (none, stored', transport') => (none, ⟨none, stored', transport'⟩)

/-- Sequence of `receive` calls with a fixed predicate served from the
stored buffer, until no further match: returns the messages obtained in
order, and the remaining buffer.  Fuel-indexed; `stored.length` fuel
always suffices. -/
def drain_stored {M : Type} (p : M → Bool) : Nat → List M → List M × List M
  | 0, stored => ([], stored)
  | fuel + 1, stored =>
    match find_and_remove p stored with
    | (none, _) => ([], stored)
    | (some m, rest) =>
      let (ms, rem) := drain_stored p fuel rest
      (m :: ms, rem)

/-! ## Single-reader transition system (`receive` lines 79–80 and
`_poll_receive` lines 28–46)

Tasks created by `asyncio.create_task(self._poll_receive())` are tracked
with a phase: `pending` (created, body not yet entered), `looping` (past
the `is_polling` re-check, inside the try/while), `finished`.  Transitions
happen atomically between awaits (cooperative scheduling):
  * `start`: the guarded start-if-absent in `receive`
    (`if not self.is_polling and self.poll_task is None`);
  * `enterSkip`: the early `return` at the top of `_poll_receive`
    (`if self.is_polling: return`) — note it does not clear `poll_task`;
  * `enterRun`: `self.is_polling = True` and entry into the loop;
  * `finishLoop`: the `finally` block
    (`self.is_polling = False; self.poll_task = None`). -/

inductive TaskPhase where
  | pending
  | looping
  | finished
  deriving DecidableEq, Repr

structure PollSt where
  isPolling : Bool
  pollTask : Option Nat
  tasks : List (Nat × TaskPhase)

def PollSt.init : PollSt := ⟨false, none, []⟩

inductive PollStep : PollSt → PollSt → Prop where
  | start (s : PollSt) (i : Nat) :
      s.isPolling = false → s.pollTask = none → (∀ t ∈ s.tasks, t.1 ≠ i) →
      PollStep s ⟨false, some i, (i, .pending) :: s.tasks⟩
  | enterSkip (s : PollSt) (i : Nat) (l₁ l₂ : List (Nat × TaskPhase)) :
      s.tasks = l₁ ++ (i, .pending) :: l₂ → s.isPolling = true →
      PollStep s ⟨s.isPolling, s.pollTask, l₁ ++ (i, .finished) :: l₂⟩
  | enterRun (s : PollSt) (i : Nat) (l₁ l₂ : List (Nat × TaskPhase)) :
      s.tasks = l₁ ++ (i, .pending) :: l₂ → s.isPolling = false →
      PollStep s ⟨true, s.pollTask, l₁ ++ (i, .looping) :: l₂⟩
  | finishLoop (s : PollSt) (i : Nat) (l₁ l₂ : List (Nat × TaskPhase)) :
      s.tasks = l₁ ++ (i, .looping) :: l₂ →
      PollStep s ⟨false, none, l₁ ++ (i, .finished) :: l₂⟩

inductive PollReach : PollSt → Prop where
  | init : PollReach PollSt.init
  | step {s s' : PollSt} : PollReach s → PollStep s s' → PollReach s'

/-- Number of created-but-unfinished poll tasks. -/
def unfinishedCount (l : List (Nat × TaskPhase)) : Nat :=
  l.countP (fun t => t.2 != TaskPhase.finished)

/-- Number of tasks currently inside the read loop (awaiting the
transport's receive delegate). -/
def loopingCount (l : List (Nat × TaskPhase)) : Nat :=
  l.countP (fun t => t.2 == TaskPhase.looping)

def PollInv (s : PollSt) : Prop :=
  unfinishedCount s.tasks ≤ 1 ∧
  (s.pollTask = none → unfinishedCount s.tasks = 0) ∧
  (s.isPolling = false → loopingCount s.tasks = 0)

/-! ## Server message model (rtclient/models.py, restricted to the fields
the demultiplexing and entity logic reads) -/

structure RResponse where
  id : String
  status : String
  deriving DecidableEq, Repr

structure RItem where
  id : String
  itemType : String
  deriving DecidableEq, Repr

structure RPart where
  partType : String
  text : String
  transcript : String
  deriving DecidableEq, Repr

inductive SMsg where
  | sessionCreated (session : String)
  | sessionUpdated (session : String)
  | responseCreated (response : RResponse)
  | responseDone (response : RResponse)
  | outputItemAdded (responseId : String) (item : RItem)
  | outputItemDone (responseId : String) (item : RItem)
  | itemCreated (previousItemId : Option String) (item : RItem)
  | contentPartAdded (itemId : String) (contentIndex : Nat) (part : RPart)
  | contentPartDone (itemId : String) (contentIndex : Nat) (part : RPart)
  | audioDelta (itemId : String) (contentIndex : Nat) (delta : String)
  | audioDone (itemId : String) (contentIndex : Nat)
  | audioTranscriptDelta (itemId : String) (contentIndex : Nat) (delta : String)
  | audioTranscriptDone (itemId : String) (contentIndex : Nat)
  | fcArgsDelta (itemId : String) (delta : String)
  | fcArgsDone (itemId : String)
  | errorMsg (error : String)
  deriving DecidableEq, Repr

/-- The wire discriminator `m.type` the Python code matches on. -/
def msgType : SMsg → String
  | .sessionCreated _ => "session.created"
  | .sessionUpdated _ => "session.updated"
  | .responseCreated _ => "response.created"
  | .responseDone _ => "response.done"
  | .outputItemAdded _ _ => "response.output_item.added"
  | .outputItemDone _ _ => "response.output_item.done"
  | .itemCreated _ _ => "conversation.item.created"
  | .contentPartAdded _ _ _ => "response.content_part.added"
  | .contentPartDone _ _ _ => "response.content_part.done"
  | .audioDelta _ _ _ => "response.audio.delta"
  | .audioDone _ _ => "response.audio.done"
  | .audioTranscriptDelta _ _ _ => "response.audio_transcript.delta"
  | .audioTranscriptDone _ _ => "response.audio_transcript.done"
  | .fcArgsDelta _ _ => "response.function_call_arguments.delta"
  | .fcArgsDone _ => "response.function_call_arguments.done"
  | .errorMsg _ => "error"

/-- `lambda m: m.type == "error"` — the error predicate `RTClient` installs
on its `MessageQueueWithError` (rtclient/__init__.py line 587). -/
def error_predicate (m : SMsg) : Bool := msgType m == "error"

/-! ## `RTFunctionCallItem` (rtclient/__init__.py lines 420–494) -/

structure FCState where
  awaited : Bool
  iterated : Bool
  deriving DecidableEq, Repr

/-- Local usage failure (`RuntimeError`) versus protocol failure
(`RealtimeException` wrapping a server `error` message). -/
inductive FCFailure where
  | usageError (msg : String)
  | protocolError (e : String)
  deriving DecidableEq, Repr

/-- The predicate of `RTFunctionCallItem.__inner_iter`'s receive call. -/
def fc_iter_predicate (iid : String) (m : SMsg) : Bool :=
  match m with
  | .fcArgsDelta itemId _ => itemId == iid
  | .fcArgsDone itemId => itemId == iid
  | .outputItemDone _ item => item.id == iid
  | _ => false

inductive FCEnd where
  | eos
  | itemDone (item : RItem)
  | errored (e : String)
  deriving DecidableEq, Repr

/-- `RTFunctionCallItem.__inner_iter`, run to completion: collect the
argument deltas in order until `response.output_item.done` (which updates
the item), end-of-stream, or a protocol error.  Fuel-indexed. -/
def fc_inner_iter (iid : String) : Nat → EQState SMsg →
    Option (List String × FCEnd × EQState SMsg)
  | 0, _ => none
  | fuel + 1, q =>
    match mqe_receive error_predicate (fc_iter_predicate iid) q with
    | (none, q') => some ([], .eos, q')
    | (some m, q') =>
      match m with
      | .errorMsg e => some ([], .errored e, q')
      | .outputItemDone _ item => some ([], .itemDone item, q')
      | .fcArgsDelta _ d =>
        match fc_inner_iter iid fuel q' with
        | none => none
        | some (ds, e, q'') => some (d :: ds, e, q'')
      | _ => fc_inner_iter iid fuel q'

/-- `RTFunctionCallItem.__aiter__`: a usage error (`RuntimeError`) if the
item has already been awaited; otherwise mark it iterated.  The queue is
not touched in either case. -/
def fc_aiter (st : FCState) (q : EQState SMsg) :
    Except FCFailure FCState × EQState SMsg :=
  if st.awaited then (.error (.usageError "Cannot iterate after awaiting"), q)
  else (.ok { st with iterated := true }, q)

/-- `RTFunctionCallItem.__await__`: a usage error (`RuntimeError`) raised
synchronously — before any receive on the queue — if the item has already
been iterated; otherwise mark it awaited and drain `__inner_iter`
(`wait_for_completion`). -/
def fc_await (iid : String) (fuel : Nat) (st : FCState) (q : EQState SMsg) :
    Except FCFailure FCState × Option (List String × FCEnd) × EQState SMsg :=
  if st.iterated then (.error (.usageError "Cannot await after iterating"), none, q)
  else
    match fc_inner_iter iid fuel q with
    | none => (.ok { st with awaited := true }, none, q)
    | some (ds, e, q') => (.ok { st with awaited := true }, some (ds, e), q')

/-! ## `RTResponse` (rtclient/__init__.py lines 500–573) and
`RTClient.generate_response` (lines 697–705) -/

structure RTResponseSt where
  response : RResponse
  done : Bool
  deriving DecidableEq, Repr

/-- The predicate of `RTResponse.__anext__`'s first receive call. -/
def response_anext_predicate (rid : String) (m : SMsg) : Bool :=
  match m with
  | .responseDone r => r.id == rid
  | .outputItemAdded responseId _ => responseId == rid
  | _ => false

/-- The predicate of `RTResponse.__anext__`'s nested receive call waiting
for `conversation.item.created` of a freshly added output item. -/
def item_created_predicate (iid : String) (m : SMsg) : Bool :=
  match m with
  | .itemCreated _ item => item.id == iid
  | _ => false

inductive AnextOut where
  | stopIteration
  | yieldMessageItem (responseId : String) (item : RItem) (previousId : Option String)
  | yieldFunctionCallItem (responseId : String) (item : RItem) (previousId : Option String)
  | raisedError (e : String)
  | raisedValueError (msg : String)
  deriving DecidableEq, Repr

/-- `RTResponse.__anext__`: immediately stop if the terminal flag is set;
otherwise receive the next `response.done` / `response.output_item.added`
for this response id; on `added`, wait for the matching
`conversation.item.created` and yield the corresponding item wrapper. -/
def rt_response_anext (st : RTResponseSt) (q : EQState SMsg) :
    AnextOut × RTResponseSt × EQState SMsg :=
  if st.done then (.stopIteration, st, q)
  else
    match mqe_receive error_predicate (response_anext_predicate st.response.id) q with
    | (none, q') => (.stopIteration, st, q')
    | (some m, q') =>
      match m with
      | .errorMsg e => (.raisedError e, st, q')
      | .responseDone r => (.stopIteration, { st with done := true, response := r }, q')
      | .outputItemAdded _ item =>
        match mqe_receive error_predicate (item_created_predicate item.id) q' with
        | (none, q'') => (.stopIteration, st, q'')
        | (some m2, q'') =>
          match m2 with
          | .errorMsg e => (.raisedError e, st, q'')
          | .itemCreated previousId citem =>
            if citem.itemType == "message" then
              (.yieldMessageItem st.response.id citem previousId, st, q'')
            else if citem.itemType == "function_call" then
              (.yieldFunctionCallItem st.response.id citem previousId, st, q'')
            else (.raisedValueError "Unexpected item type", st, q'')
          | _ => (.raisedValueError "assertion failed", st, q'')
      | _ => (.raisedValueError "Unexpected message type", st, q')

inductive GenOut where
  | ok (st : RTResponseSt)
  | raisedError (e : String)
  | raisedAttributeError
  deriving DecidableEq, Repr

/-- `RTClient.generate_response`: receive the `response.created`
acknowledgement and wrap it in an `RTResponse` (terminal flag clear).
If the queue yields `None` (end-of-stream) the Python code dereferences
`message.type` on `None`, an `AttributeError`. -/
def generate_response (q : EQState SMsg) : GenOut × EQState SMsg :=
  match mqe_receive error_predicate (fun m => msgType m == "response.created") q with
  | (none, q') => (.raisedAttributeError, q')
  | (some m, q') =>
    match m with
    | .errorMsg e => (.raisedError e, q')
    | .responseCreated r => (.ok ⟨r, false⟩, q')
    | _ => (.raisedAttributeError, q')

/-! ## `SharedEndQueue` and `RTAudioContent` (rtclient/__init__.py lines
189–306)

The delegate (`RTAudioContent._receive_content`) is modelled as the list
of messages it will deliver, in order; in the library these are exactly
the audio/transcript delta/done messages of this content part followed by
its terminal `response.content_part.done`. -/

structure SEQState where
  queue : List SMsg
  stream : List SMsg
  deriving DecidableEq, Repr

/-- The scan over the local `_queue` in `SharedEndQueue.receive` (lines
204–208): pop and return the first message satisfying the predicate, but
if the shared end marker is found first, return it *without* removing it
from the queue. -/
def seq_scan (endP p : SMsg → Bool) : List SMsg → Option SMsg × List SMsg
  | [] => (none, [])
  | m :: rest =>
    if p m then (some m, rest)
    else if endP m then (some m, m :: rest)
    else
      let (r, rest') := seq_scan endP p rest
      (r, m :: rest')

/-- The pull loop in `SharedEndQueue.receive` (lines 210–217): pull from
the delegate; return on end-of-stream, error, or predicate match; the
shared end marker is appended to the local queue *and* returned; anything
else is buffered and the loop continues. -/
def seq_pull (errP endP p : SMsg → Bool) :
    List SMsg → List SMsg → Option SMsg × List SMsg × List SMsg
  | q, [] => (none, q, [])
  | q, m :: rest =>
    if errP m || p m then (some m, q, rest)
    else if endP m then (some m, q ++ [m], rest)
    else seq_pull errP endP p (q ++ [m]) rest

/-- `SharedEndQueue.receive`. -/
def seq_receive (errP endP p : SMsg → Bool) (s : SEQState) : Option SMsg × SEQState :=
  match seq_scan endP p s.queue with
  | (some m, q') => (some m, ⟨q', s.stream⟩)
  | (none, _) =>
    let (r, q'', str') := seq_pull errP endP p s.queue s.stream
    (r, ⟨q'', str'⟩)

/-- `RTAudioContent`'s error predicate for its `SharedEndQueue`. -/
def content_error_predicate (m : SMsg) : Bool := msgType m == "error"

/-- `RTAudioContent`'s shared end predicate for its `SharedEndQueue`. -/
def content_end_predicate (m : SMsg) : Bool := msgType m == "response.content_part.done"

/-- The predicate `RTAudioContent.audio_chunks` passes to the shared
queue. -/
def audio_chunks_predicate (m : SMsg) : Bool :=
  msgType m == "response.audio.delta" || msgType m == "response.audio.done"

/-- The predicate `RTAudioContent.transcript_chunks` passes to the shared
queue. -/
def transcript_chunks_predicate (m : SMsg) : Bool :=
  msgType m == "response.audio_transcript.delta" || msgType m == "response.audio_transcript.done"

/-- Outcome of a chunk sub-stream: end-of-stream break, completion via the
shared `response.content_part.done` (carrying the final part snapshot), or
a protocol error. -/
inductive ChunkEnd where
  | eos
  | partDone (part : RPart)
  | errored (e : String)
  deriving DecidableEq, Repr

/-- `RTAudioContent.audio_chunks`, run to completion: yield the decoded
audio deltas in order; `response.audio.done` is intentionally skipped; the
loop ends on `None`, on the shared `response.content_part.done`, or on an
error.  Fuel-indexed; `none` means the fuel ran out. -/
def audio_chunks_run : Nat → SEQState → Option (List String × ChunkEnd × SEQState)
  | 0, _ => none
  | fuel + 1, s =>
    match seq_receive content_error_predicate content_end_predicate audio_chunks_predicate s with
    | (none, s') => some ([], .eos, s')
    | (some m, s') =>
      match m with
      | .contentPartDone _ _ part => some ([], .partDone part, s')
      | .errorMsg e => some ([], .errored e, s')
      | .audioDelta _ _ d =>
        match audio_chunks_run fuel s' with
        | none => none
        | some (cs, e, s'') => some (d :: cs, e, s'')
      | _ => audio_chunks_run fuel s'

/-- `RTAudioContent.transcript_chunks`, run to completion (mirror image of
`audio_chunks_run`). -/
def transcript_chunks_run : Nat → SEQState → Option (List String × ChunkEnd × SEQState)
  | 0, _ => none
  | fuel + 1, s =>
    match seq_receive content_error_predicate content_end_predicate transcript_chunks_predicate s with
    | (none, s') => some ([], .eos, s')
    | (some m, s') =>
      match m with
      | .contentPartDone _ _ part => some ([], .partDone part, s')
      | .errorMsg e => some ([], .errored e, s')
      | .audioTranscriptDelta _ _ d =>
        match transcript_chunks_run fuel s' with
        | none => none
        | some (cs, e, s'') => some (d :: cs, e, s'')
      | _ => transcript_chunks_run fuel s'

/-- Messages a content part's delta stream may carry before its terminal
event: the four audio / audio-transcript delta/done variants. -/
def part_stream_msg (m : SMsg) : Bool :=
  audio_chunks_predicate m || transcript_chunks_predicate m

/-- The audio-delta payloads of a delta stream, in order. -/
def audio_deltas (l : List SMsg) : List String :=
  l.filterMap fun m =>
    match m with
    | .audioDelta _ _ d => some d
    | _ => none

/-- The transcript-delta payloads of a delta stream, in order. -/
def transcript_deltas (l : List SMsg) : List String :=
  l.filterMap fun m =>
    match m with
    | .audioTranscriptDelta _ _ d => some d
    | _ => none

/-- The sub-sequence of messages belonging to the audio sub-stream. -/
def audio_msgs (l : List SMsg) : List SMsg := l.filter audio_chunks_predicate

/-- The sub-sequence of messages belonging to the transcript sub-stream. -/
def transcript_msgs (l : List SMsg) : List SMsg := l.filter transcript_chunks_predicate

/-! ## `RTClient.configure` (rtclient/__init__.py lines 602–649)

The method builds a `session.update` request from its arguments, sends it,
then receives the `session.updated` acknowledgement from the shared
error-gated queue.  The deployment variant flag
(`RTLowLevelClient._is_azure_openai`) and the request payload are passed
in explicitly so that dependence on them is statable; the receive path of
the source reads neither. -/

inductive ConfigureOut where
  | updated (session : String)
  | raisedError (e : String)
  | raisedAttributeError
  deriving DecidableEq, Repr

def session_updated_predicate (m : SMsg) : Bool := msgType m == "session.updated"

/-- `RTClient.configure`. -/
def configure (isAzureOpenAI : Bool) (requestedSession : String) (q : EQState SMsg) :
    ConfigureOut × EQState SMsg :=
  match mqe_receive error_predicate session_updated_predicate q with
  | (none, q') => (.raisedAttributeError, q')
  | (some m, q') =>
    match m with
    | .errorMsg e => (.raisedError e, q')
    | .sessionUpdated sess => (.updated sess, q')
    | _ => (.raisedAttributeError, q')

/-- Modelled from the spec: claim C6's reading of `configure`, under which
a deployment variant that never emits `session.updated` is special-cased
by synthesizing the acknowledgement locally from the request payload,
without receiving; every other variant behaves like the source
`configure`.  This definition follows the claim's words and exists only to
be compared with the source `configure`. -/
def configure_claimed (isAzureOpenAI : Bool) (requestedSession : String)
    (q : EQState SMsg) : ConfigureOut × EQState SMsg :=
  if isAzureOpenAI then (.updated requestedSession, q)
  else configure isAzureOpenAI requestedSession q

/-! ## `generate_id` (rtclient/util/id_generator.py)

`secrets.token_urlsafe(24)` produces a 32-character URL-safe token; the
token is passed in explicitly (the randomness is external).  Python
strings are embedded as lists of characters. -/

def generate_id (pfx token : List Char) : List Char :=
  pfx ++ ['-'] ++ token.drop (pfx.length + 1)

/-- Scenario A of the spec: the message sequence injected for one complete
response holding one message item. -/
def scenarioA : List SMsg :=
  [.responseCreated ⟨"R1", "in_progress"⟩,
   .outputItemAdded "R1" ⟨"I1", "message"⟩,
   .itemCreated none ⟨"I1", "message"⟩,
   .outputItemDone "R1" ⟨"I1", "message"⟩,
   .responseDone ⟨"R1", "completed"⟩]

/-! # Theorems -/

theorem find_and_remove_of_none {M : Type} (p : M → Bool) (l : List M)
    (h : ∀ m ∈ l, p m = false) : find_and_remove p l = (none, l) := by
  induction l with
  | nil => rfl
  | cons m rest ih =>
    have hm : p m = false := h m (by simp)
    simp only [find_and_remove, hm, Bool.false_eq_true, if_false]
    rw [ih fun x hx => h x (by simp [hx])]

theorem find_and_remove_first {M : Type} (p : M → Bool) (pre : List M) (m : M)
    (post : List M) (hpre : ∀ x ∈ pre, p x = false) (hm : p m = true) :
    find_and_remove p (pre ++ m :: post) = (some m, pre ++ post) := by
  induction pre with
  | nil => simp [find_and_remove, hm]
  | cons x rest ih =>
    have hx : p x = false := hpre x (by simp)
    have ih' := ih fun y hy => hpre y (by simp [hy])
    simp only [List.cons_append, find_and_remove, hx, Bool.false_eq_true, if_false]
    simp [ih']

theorem find_and_remove_none_all {M : Type} (p : M → Bool) (l : List M) (l₂ : List M)
    (h : find_and_remove p l = (none, l₂)) : (∀ m ∈ l, p m = false) ∧ l₂ = l := by
  induction l generalizing l₂ with
  | nil =>
    simp [find_and_remove] at h
    simp [h]
  | cons m rest ih =>
    by_cases hm : p m
    · simp [find_and_remove, hm] at h
    · simp only [find_and_remove, hm, Bool.false_eq_true, if_false] at h
      rcases hr : find_and_remove p rest with ⟨r, rest'⟩
      rw [hr] at h
      cases h' : r with
      | some a => rw [h'] at h; simp at h
      | none =>
        rw [h'] at h
        simp only [Prod.mk.injEq] at h
        rcases ih rest' (by rw [hr, h']) with ⟨hall, heq⟩
        constructor
        · intro x hx
          rcases List.mem_cons.mp hx with hx | hx
          · rw [hx]; exact Bool.not_eq_true _ ▸ by simpa using hm
          · exact hall x hx
        · rw [← h.2, heq]

theorem find_and_remove_some {M : Type} (p : M → Bool) (l : List M) (m : M)
    (rest : List M) (h : find_and_remove p l = (some m, rest)) :
    p m = true ∧ l.filter p = m :: rest.filter p ∧
      l.filter (fun x => !(p x)) = rest.filter (fun x => !(p x)) ∧
      rest.length + 1 = l.length := by
  induction l generalizing rest with
  | nil => simp [find_and_remove] at h
  | cons x xs ih =>
    by_cases hx : p x
    · simp only [find_and_remove, hx, if_true, Prod.mk.injEq, Option.some.injEq] at h
      rcases h with ⟨h1, h2⟩
      subst h1; subst h2
      refine ⟨hx, ?_, ?_, rfl⟩
      · simp [List.filter_cons, hx]
      · simp [List.filter_cons, hx]
    · simp only [find_and_remove, hx, Bool.false_eq_true, if_false] at h
      rcases hr : find_and_remove p xs with ⟨r, xs'⟩
      rw [hr] at h
      simp only [Prod.mk.injEq] at h
      rcases h with ⟨h1, h2⟩
      cases r with
      | none => simp at h1
      | some a =>
        simp only [Option.some.injEq] at h1
        subst h1
        rcases ih xs' hr with ⟨hp, hf, hnf, hlen⟩
        subst h2
        have hxf : p x = false := by simpa using hx
        refine ⟨hp, ?_, ?_, ?_⟩
        · simp [List.filter_cons, hxf, hf]
        · simp [List.filter_cons, hxf, hnf]
        · simp [hlen.symm]

theorem drain_stored_spec {M : Type} (p : M → Bool) :
    ∀ (fuel : Nat) (l : List M), l.length ≤ fuel →
      drain_stored p fuel l = (l.filter p, l.filter (fun x => !(p x))) := by
  intro fuel
  induction fuel with
  | zero =>
    intro l hl
    have : l = [] := List.length_eq_zero.mp (Nat.le_zero.mp hl)
    subst this
    rfl
  | succ f ih =>
    intro l hl
    rcases hr : find_and_remove p l with ⟨r, rest⟩
    cases r with
    | none =>
      rcases find_and_remove_none_all p l rest hr with ⟨hall, _⟩
      have h1 : l.filter p = [] := List.filter_eq_nil.mpr (by
        intro a ha
        simp [hall a ha])
      have h2 : l.filter (fun x => !(p x)) = l := List.filter_eq_self.mpr (by
        intro a ha
        simp [hall a ha])
      simp [drain_stored, hr, h1, h2]
    | some m =>
      rcases find_and_remove_some p l m rest hr with ⟨hp, hf, hnf, hlen⟩
      have hrest : rest.length ≤ f := by omega
      simp [drain_stored, hr, ih rest hrest, hf, hnf]

/-- Claim C10: for every prefix of length at most 31 and every 32-character
URL-safe token, `generate_id` returns the prefix, a dash, and the token
with its first `len(prefix) + 1` characters removed; the result begins
with `prefix ++ "-"` and has total length exactly 32. -/
theorem generate_id_spec (pfx token : List Char) (htok : token.length = 32)
    (hp : pfx.length ≤ 31) :
    generate_id pfx token = pfx ++ ['-'] ++ token.drop (pfx.length + 1) ∧
    (generate_id pfx token).length = 32 ∧
    (generate_id pfx token).take (pfx.length + 1) = pfx ++ ['-'] := by
  refine ⟨rfl, ?_, ?_⟩
  · simp [generate_id, htok]
    omega
  · show (pfx ++ ['-'] ++ token.drop (pfx.length + 1)).take (pfx.length + 1) = pfx ++ ['-']
    rw [List.append_assoc, List.take_append]
    simp

theorem generate_id_spec_witness :
    (List.replicate 32 'x').length = 32 ∧
    (generate_id ['a', 'b'] (List.replicate 32 'x')).length = 32 ∧
    (generate_id ['a', 'b'] (List.replicate 32 'x')).take 3 = ['a', 'b', '-'] :=
  ⟨by simp,
   (generate_id_spec ['a', 'b'] (List.replicate 32 'x') (by simp) (by simp)).2.1,
   (generate_id_spec ['a', 'b'] (List.replicate 32 'x') (by simp) (by simp)).2.2⟩

/-- Claim C1: the two consumption modes of `RTFunctionCallItem` are
one-shot and mutually exclusive.  Once the item is iterated, awaiting it
fails synchronously with a usage error (`RuntimeError`), leaving the
message queue untouched; once awaited, beginning iteration fails likewise;
in both directions the failure is a usage error, never a protocol error. -/
theorem fc_one_shot (iid : String) (fuel : Nat) (st : FCState) (q : EQState SMsg) :
    (st.iterated = true →
      fc_await iid fuel st q = (.error (.usageError "Cannot await after iterating"), none, q)) ∧
    (st.awaited = true →
      fc_aiter st q = (.error (.usageError "Cannot iterate after awaiting"), q)) ∧
    (∀ st₂ q₂, fc_aiter st q = (.ok st₂, q₂) →
      fc_await iid fuel st₂ q₂ = (.error (.usageError "Cannot await after iterating"), none, q₂)) ∧
    (∀ st₂ r q₂, fc_await iid fuel st q = (.ok st₂, r, q₂) →
      fc_aiter st₂ q₂ = (.error (.usageError "Cannot iterate after awaiting"), q₂)) := by
  refine ⟨fun h => by simp [fc_await, h], fun h => by simp [fc_aiter, h], ?_, ?_⟩
  · intro st₂ q₂ hok
    by_cases ha : st.awaited
    · simp [fc_aiter, ha] at hok
    · simp only [fc_aiter, ha, Bool.false_eq_true, if_false, Prod.mk.injEq,
        Except.ok.injEq] at hok
      rcases hok with ⟨h1, h2⟩
      subst h2
      simp [fc_await, ← h1]
  · intro st₂ r q₂ hok
    by_cases hi : st.iterated
    · simp [fc_await, hi] at hok
    · simp only [fc_await, hi, Bool.false_eq_true, if_false] at hok
      rcases hd : fc_inner_iter iid fuel q with _ | ⟨⟨ds, e, q'⟩⟩
      · rw [hd] at hok
        simp only [Prod.mk.injEq, Except.ok.injEq] at hok
        rcases hok with ⟨h1, _, h3⟩
        subst h3
        simp [fc_aiter, ← h1]
      · rw [hd] at hok
        simp only [Prod.mk.injEq, Except.ok.injEq] at hok
        rcases hok with ⟨h1, _, h3⟩
        subst h3
        simp [fc_aiter, ← h1]

theorem fc_one_shot_witness :
    fc_await "I1" 3 ⟨false, true⟩ ⟨none, [], [.fcArgsDelta "I1" "x"]⟩ =
      (.error (.usageError "Cannot await after iterating"), none,
        ⟨none, [], [.fcArgsDelta "I1" "x"]⟩) ∧
    fc_aiter ⟨true, false⟩ ⟨none, [], []⟩ =
      (.error (.usageError "Cannot iterate after awaiting"), ⟨none, [], []⟩) :=
  ⟨(fc_one_shot "I1" 3 ⟨false, true⟩ ⟨none, [], [.fcArgsDelta "I1" "x"]⟩).1 rfl,
   (fc_one_shot "I1" 3 ⟨true, false⟩ ⟨none, [], []⟩).2.1 rfl⟩

/-- Claim C2: the error gate latches.  A latched error is returned by every
later `receive` immediately, with the queue (including its unread
transport) untouched; `_notify_error` resolves every pending waiter with
that same error message regardless of the waiter's own predicate and
clears the list; and a received message satisfying the error predicate is
latched. -/
theorem error_gate_latch {M : Type} (errP p : M → Bool) (s : EQState M) (e : M)
    (ws : List (Nat × (M → Bool))) :
    (s.error = some e → mqe_receive errP p s = (some e, s)) ∧
    (notify_error e ws = ws.map fun w => (w.1, e)) ∧
    (∀ i pr, (i, pr) ∈ ws → (i, e) ∈ notify_error e ws) ∧
    (∀ m s₂, s.error = none → mqe_receive errP p s = (some m, s₂) → errP m = true →
      s₂.error = some m) := by
  have hmap : notify_error e ws = ws.map fun w => (w.1, e) := by
    induction ws with
    | nil => rfl
    | cons w rest ih => cases w; simp [notify_error, ih]
  refine ⟨fun h => by simp [mqe_receive, h], hmap, ?_, ?_⟩
  · intro i pr hin
    rw [hmap]
    exact List.mem_map.mpr ⟨(i, pr), hin, rfl⟩
  · intro m s₂ hnone hrec herr
    simp only [mqe_receive, hnone] at hrec
    rcases hmq : mq_receive (fun x => p x || errP x) s.stored s.transport with ⟨r, st', tr'⟩
    rw [hmq] at hrec
    cases r with
    | none => simp at hrec
    | some m' =>
      by_cases he : errP m'
      · simp only [he, if_true, Prod.mk.injEq, Option.some.injEq] at hrec
        rcases hrec with ⟨h1, h2⟩
        subst h1
        rw [← h2]
      · simp only [he, Bool.false_eq_true, if_false, Prod.mk.injEq, Option.some.injEq] at hrec
        rcases hrec with ⟨h1, _⟩
        subst h1
        exact absurd herr (by simpa using he)

theorem error_gate_latch_witness :
    mqe_receive (fun m => m == 9) (fun m => m == 1) ⟨some 9, [7], [3]⟩ =
      (some 9, ⟨some 9, [7], [3]⟩) ∧
    (1, 9) ∈ notify_error 9 [(0, fun _ => false), (1, fun m => m == 1)] :=
  ⟨(error_gate_latch (fun m => m == 9) (fun m => m == 1) ⟨some 9, [7], [3]⟩ 9 []).1 rfl,
   (error_gate_latch (fun m => m == 9) (fun m => m == 1) ⟨some 9, [7], [3]⟩ 9
      [(0, fun _ => false), (1, fun m => m == 1)]).2.2.1 1 (fun m => m == 1) (by simp)⟩

/-- Claim C9: once an `RTResponse` is terminal (`_done` set by consuming
its `response.done`), every further `__anext__` raises
`StopAsyncIteration` immediately and performs no receive: the queue state
(latched error, buffered messages, unread transport) is returned exactly
as it was. -/
theorem response_done_frame (st : RTResponseSt) (q : EQState SMsg)
    (h : st.done = true) :
    rt_response_anext st q = (.stopIteration, st, q) := by
  simp [rt_response_anext, h]

theorem response_done_frame_witness :
    rt_response_anext ⟨⟨"R1", "completed"⟩, true⟩
        ⟨none, [.outputItemDone "R1" ⟨"I1", "message"⟩], [.responseCreated ⟨"R2", "in_progress"⟩]⟩ =
      (.stopIteration, ⟨⟨"R1", "completed"⟩, true⟩,
        ⟨none, [.outputItemDone "R1" ⟨"I1", "message"⟩], [.responseCreated ⟨"R2", "in_progress"⟩]⟩) :=
  response_done_frame ⟨⟨"R1", "completed"⟩, true⟩
    ⟨none, [.outputItemDone "R1" ⟨"I1", "message"⟩], [.responseCreated ⟨"R2", "in_progress"⟩]⟩ rfl

/-- Claim C6 fails on the code: `configure` under the Azure deployment
variant does not synthesize a local acknowledgement from the request
payload — at this concrete input it still receives from the queue and
returns the server-sent session, unlike the claimed behaviour. -/
theorem configure_special_case_counterexample :
    configure_claimed true "client-requested"
        ⟨none, [], [.sessionUpdated "server-confirmed"]⟩ ≠
      configure true "client-requested"
        ⟨none, [], [.sessionUpdated "server-confirmed"]⟩ := by
  decide

/-- Claim C6 (amended): `configure` special-cases no deployment variant:
its result is independent of the variant flag and of the request payload,
and under every variant it waits for the `session.updated`
acknowledgement, returning the server's confirmed session. -/
theorem configure_waits_for_session_updated :
    (∀ (v₁ : Bool) (p₁ : String) (v₂ : Bool) (p₂ : String) (q : EQState SMsg),
      configure v₁ p₁ q = configure v₂ p₂ q) ∧
    (∀ (v : Bool) (pay sess : String) (rest : List SMsg),
      configure v pay ⟨none, [], .sessionUpdated sess :: rest⟩ =
        (.updated sess, ⟨none, [], rest⟩)) := by
  constructor
  · intro v₁ p₁ v₂ p₂ q
    rfl
  · intro v pay sess rest
    rfl

/-- Claim C5 fails on the code in its final clause: a `receive` call made
after end-of-stream first scans the stored buffer, so with a buffered
matching message it returns that message, not "no message". -/
theorem eos_receive_counterexample :
    (mq_receive (fun m => m == 5) [5] ([] : List Nat)).1 = some 5 ∧
    ¬((mq_receive (fun m => m == 5) [5] ([] : List Nat)).1 = none) := by
  decide

/-- Claim C5 (amended): when the transport reports end-of-stream, every
outstanding `receive` is resolved exactly once with "no message" and the
waiter list is cleared; and a `receive` made after end-of-stream whose
predicate matches no buffered message also returns "no message". -/
theorem end_of_stream_resolution {M : Type} (ws : List (Nat × (M → Bool)))
    (p : M → Bool) (stored : List M) (hmiss : ∀ m ∈ stored, p m = false) :
    notify_end_of_stream ws = ws.map (fun w => (w.1, (none : Option M))) ∧
    (∀ s : QS M, poll_receive_run [] s =
      (⟨s.stored, []⟩, notify_end_of_stream s.waiters, [])) ∧
    mq_receive p stored [] = (none, stored, []) := by
  refine ⟨?_, fun s => rfl, ?_⟩
  · induction ws with
    | nil => rfl
    | cons w rest ih => cases w; simp [notify_end_of_stream, ih]
  · rw [mq_receive, find_and_remove_of_none p stored hmiss]
    rfl

theorem end_of_stream_resolution_witness :
    notify_end_of_stream [(0, fun m => m == 1), (1, fun _ => true)] =
      [(0, (none : Option Nat)), (1, none)] ∧
    mq_receive (fun m => m == 5) [4, 6] ([] : List Nat) = (none, [4, 6], []) :=
  ⟨(end_of_stream_resolution [(0, fun m => m == 1), (1, fun _ => true)]
      (fun m => m == 5) [4, 6] (by decide)).1,
   (end_of_stream_resolution [(0, fun m => m == 1), (1, fun _ => true)]
      (fun m => m == 5) [4, 6] (by decide)).2.2⟩

theorem notify_receiver_cases {M : Type} (m : M) (stored : List M)
    (ws : List (Nat × (M → Bool))) :
    ((notify_receiver m stored ws).2.2 = none ∧
      (notify_receiver m stored ws).1 = stored ++ [m]) ∨
    ((notify_receiver m stored ws).2.2.isSome ∧
      (notify_receiver m stored ws).1 = stored) := by
  induction ws with
  | nil => exact Or.inl ⟨rfl, rfl⟩
  | cons w rest ih =>
    rcases w with ⟨i, p⟩
    by_cases hp : p m
    · exact Or.inr (by simp [notify_receiver, hp])
    · rcases hnr : notify_receiver m stored rest with ⟨st', ws', r⟩
      rw [hnr] at ih
      rcases ih with ⟨h1, h2⟩ | ⟨h1, h2⟩
      · have h1' : r = none := h1
        have h2' : st' = stored ++ [m] := h2
        exact Or.inl (by simp [notify_receiver, hp, hnr, h1', h2'])
      · have h1' : r.isSome := h1
        have h2' : st' = stored := h2
        exact Or.inr (by simp [notify_receiver, hp, hnr, h2']; simpa using h1')

theorem delivered_notify_end_of_stream {M : Type} (ws : List (Nat × (M → Bool))) :
    delivered (notify_end_of_stream (M := M) ws) = [] := by
  induction ws with
  | nil => rfl
  | cons w rest ih => cases w; simp [notify_end_of_stream, delivered] at ih ⊢; exact ih

theorem poll_run_conservation {M : Type} [DecidableEq M] :
    ∀ (transport : List M) (s : QS M) (x : M),
      (delivered (poll_receive_run transport s).2.1).count x
        + (poll_receive_run transport s).1.stored.count x
        + (poll_receive_run transport s).2.2.count x
      = s.stored.count x + transport.count x := by
  intro transport
  induction transport with
  | nil =>
    intro s x
    simp [poll_receive_run, delivered_notify_end_of_stream]
  | cons m rest ih =>
    intro s x
    rcases hnr : notify_receiver m s.stored s.waiters with ⟨st', ws', r⟩
    have hcases := notify_receiver_cases m s.stored s.waiters
    rw [hnr] at hcases
    simp only [poll_receive_run, hnr]
    by_cases hwe : ws'.isEmpty
    · simp only [hwe, if_true]
      rcases hcases with ⟨h1, h2⟩ | ⟨h1, h2⟩
      · simp only at h1 h2
        subst h1 h2
        simp [delivered, List.count_append, List.count_cons]
        omega
      · simp only at h1 h2
        subst h2
        rcases r with _ | i
        · simp at h1
        · simp [delivered, List.count_cons]
          omega
    · simp only [hwe, Bool.false_eq_true, if_false]
      rcases hpr : poll_receive_run rest ⟨st', ws'⟩ with ⟨s', res, tr⟩
      have ih' := ih ⟨st', ws'⟩ x
      rw [hpr] at ih'
      simp only at ih'
      rcases hcases with ⟨h1, h2⟩ | ⟨h1, h2⟩
      · simp only at h1 h2
        subst h1 h2
        simp only [hpr, delivered, List.filterMap_append]
        simp only [delivered] at ih'
        simp [List.count_append, List.count_cons] at ih' ⊢
        omega
      · simp only at h1 h2
        subst h2
        rcases r with _ | i
        · simp at h1
        · simp only [hpr, delivered, List.filterMap_append]
          simp only [delivered] at ih'
          simp [List.count_append, List.count_cons] at ih' ⊢
          omega

/-- Claim C3: messages are never duplicated and arrival order is
preserved per predicate.  `_find_and_remove` returns (and removes) the
first buffered message satisfying the predicate; sequential receives with
a fixed predicate drain the buffer to exactly its matching sub-sequence in
arrival order; over any read-loop run, message occurrences are conserved
(each transport message ends up delivered, buffered, or still unread), so
a message arriving once is delivered to at most one caller. -/
theorem demux_no_dup_ordered (M : Type) [DecidableEq M] :
    (∀ (p : M → Bool) (pre : List M) (m : M) (post : List M),
      (∀ x ∈ pre, p x = false) → p m = true →
      find_and_remove p (pre ++ m :: post) = (some m, pre ++ post)) ∧
    (∀ (p : M → Bool) (l : List M),
      drain_stored p l.length l = (l.filter p, l.filter (fun x => !(p x)))) ∧
    (∀ (transport : List M) (s : QS M) (x : M),
      (delivered (poll_receive_run transport s).2.1).count x
        + (poll_receive_run transport s).1.stored.count x
        + (poll_receive_run transport s).2.2.count x
      = s.stored.count x + transport.count x) ∧
    (∀ (transport : List M) (s : QS M) (x : M),
      transport.count x = 1 → s.stored.count x = 0 →
      (delivered (poll_receive_run transport s).2.1).count x ≤ 1) := by
  refine ⟨find_and_remove_first, fun p l => drain_stored_spec p l.length l le_rfl,
    poll_run_conservation, ?_⟩
  intro transport s x h1 h0
  have := poll_run_conservation transport s x
  omega

theorem demux_no_dup_ordered_witness :
    ((∀ x ∈ [1], (fun m => m == 2) x = false) ∧ ((fun m => m == 2) 2 = true)) ∧
    find_and_remove (fun m => m == 2) ([1] ++ 2 :: [3]) = (some 2, [1] ++ [3]) ∧
    ([2].count 2 = 1 ∧ ([] : List Nat).count 2 = 0) ∧
    (delivered (poll_receive_run [2] ⟨[], [(0, fun m => m == 2)]⟩).2.1).count 2 ≤ 1 :=
  ⟨⟨by decide, by decide⟩,
   (demux_no_dup_ordered Nat).1 (fun m => m == 2) [1] 2 [3] (by decide) (by decide),
   ⟨by decide, by decide⟩,
   (demux_no_dup_ordered Nat).2.2.2 [2] ⟨[], [(0, fun m => m == 2)]⟩ 2
     (by decide) (by decide)⟩

theorem looping_le_unfinished (l : List (Nat × TaskPhase)) :
    loopingCount l ≤ unfinishedCount l := by
  apply List.countP_mono_left
  intro t _ h
  rcases t with ⟨i, ph⟩
  cases ph <;> simp_all

theorem poll_inv_init : PollInv PollSt.init := by
  refine ⟨?_, ?_, ?_⟩ <;> simp [PollSt.init, unfinishedCount, loopingCount]

theorem unfinishedCount_cons (t : Nat × TaskPhase) (l : List (Nat × TaskPhase)) :
    unfinishedCount (t :: l) =
      unfinishedCount l + (if t.2 = TaskPhase.finished then 0 else 1) := by
  simp only [unfinishedCount, List.countP_cons]
  rcases t with ⟨i, ph⟩
  cases ph <;> simp

theorem unfinishedCount_append (l₁ l₂ : List (Nat × TaskPhase)) :
    unfinishedCount (l₁ ++ l₂) = unfinishedCount l₁ + unfinishedCount l₂ := by
  simp [unfinishedCount, List.countP_append]

theorem loopingCount_cons (t : Nat × TaskPhase) (l : List (Nat × TaskPhase)) :
    loopingCount (t :: l) =
      loopingCount l + (if t.2 = TaskPhase.looping then 1 else 0) := by
  simp only [loopingCount, List.countP_cons]
  rcases t with ⟨i, ph⟩
  cases ph <;> simp

theorem loopingCount_append (l₁ l₂ : List (Nat × TaskPhase)) :
    loopingCount (l₁ ++ l₂) = loopingCount l₁ + loopingCount l₂ := by
  simp [loopingCount, List.countP_append]

theorem poll_inv_step {s s' : PollSt} (hinv : PollInv s) (hstep : PollStep s s') :
    PollInv s' := by
  rcases hinv with ⟨hu, hpt, hlo⟩
  cases hstep with
  | start i hpoll htask hfresh =>
    have h0 : unfinishedCount s.tasks = 0 := hpt htask
    have hl0 : loopingCount s.tasks = 0 := hlo hpoll
    refine ⟨?_, ?_, ?_⟩
    · show unfinishedCount ((i, TaskPhase.pending) :: s.tasks) ≤ 1
      rw [unfinishedCount_cons]
      simp
      omega
    · intro h
      simp at h
    · intro _
      show loopingCount ((i, TaskPhase.pending) :: s.tasks) = 0
      rw [loopingCount_cons]
      simp
      exact hl0
  | enterSkip i l₁ l₂ htasks hpoll =>
    rw [htasks] at hu hpt
    rw [unfinishedCount_append, unfinishedCount_cons] at hu
    refine ⟨?_, ?_, ?_⟩
    · show unfinishedCount (l₁ ++ (i, TaskPhase.finished) :: l₂) ≤ 1
      rw [unfinishedCount_append, unfinishedCount_cons]
      simp at hu ⊢
      omega
    · intro h
      have h0 := hpt h
      rw [unfinishedCount_append, unfinishedCount_cons] at h0
      simp at h0
    · intro h
      rw [hpoll] at h
      simp at h
  | enterRun i l₁ l₂ htasks hpoll =>
    rw [htasks] at hu hpt
    refine ⟨?_, ?_, ?_⟩
    · show unfinishedCount (l₁ ++ (i, TaskPhase.looping) :: l₂) ≤ 1
      rw [unfinishedCount_append, unfinishedCount_cons] at hu ⊢
      simp at hu ⊢
      omega
    · intro h
      have h0 := hpt h
      rw [unfinishedCount_append, unfinishedCount_cons] at h0
      simp at h0
    · intro h
      simp at h
  | finishLoop i l₁ l₂ htasks =>
    rw [htasks] at hu
    rw [unfinishedCount_append, unfinishedCount_cons] at hu
    have hle₁ := looping_le_unfinished l₁
    have hle₂ := looping_le_unfinished l₂
    refine ⟨?_, ?_, ?_⟩
    · show unfinishedCount (l₁ ++ (i, TaskPhase.finished) :: l₂) ≤ 1
      rw [unfinishedCount_append, unfinishedCount_cons]
      simp at hu ⊢
      omega
    · intro _
      show unfinishedCount (l₁ ++ (i, TaskPhase.finished) :: l₂) = 0
      rw [unfinishedCount_append, unfinishedCount_cons]
      simp at hu ⊢
      omega
    · intro _
      show loopingCount (l₁ ++ (i, TaskPhase.finished) :: l₂) = 0
      rw [loopingCount_append, loopingCount_cons]
      simp at hu ⊢
      omega

theorem poll_inv_reach {s : PollSt} (h : PollReach s) : PollInv s := by
  induction h with
  | init => exact poll_inv_init
  | step _ hstep ih => exact poll_inv_step ih hstep

/-- Claim C4: the single-reader invariant.  In every reachable state of
the `receive` / `_poll_receive` transition system, at most one poll task
is inside the read loop, i.e. the transport's receive delegate is never
awaited by two loops simultaneously; the guarded start-if-absent check in
`receive` is what maintains this. -/
theorem single_reader_invariant (s : PollSt) (h : PollReach s) :
    loopingCount s.tasks ≤ 1 :=
  le_trans (looping_le_unfinished s.tasks) (poll_inv_reach h).1

theorem single_reader_invariant_witness :
    loopingCount ([] ++ (0, TaskPhase.looping) :: []) ≤ 1 :=
  single_reader_invariant ⟨true, some 0, [] ++ (0, TaskPhase.looping) :: []⟩
    (PollReach.step
      (PollReach.step PollReach.init
        (PollStep.start PollSt.init 0 rfl rfl (by simp [PollSt.init])))
      (PollStep.enterRun ⟨false, some 0, [(0, TaskPhase.pending)]⟩ 0 [] [] rfl rfl))

/-- Claim C7: under the Scenario A injected message sequence
(`response.created(R1)`, `response.output_item.added(I1, R1)`,
`conversation.item.created(I1)`, `response.output_item.done(I1)`,
`response.done(R1, completed)`), iterating the `RTResponse` for R1 yields
exactly one item with id I1 and then stops, and after iteration ends the
response status equals `completed`. -/
theorem scenarioA_iteration :
    generate_response ⟨none, [], scenarioA⟩ =
      (.ok ⟨⟨"R1", "in_progress"⟩, false⟩,
        ⟨none, [],
          [.outputItemAdded "R1" ⟨"I1", "message"⟩,
           .itemCreated none ⟨"I1", "message"⟩,
           .outputItemDone "R1" ⟨"I1", "message"⟩,
           .responseDone ⟨"R1", "completed"⟩]⟩) ∧
    rt_response_anext ⟨⟨"R1", "in_progress"⟩, false⟩
        ⟨none, [],
          [.outputItemAdded "R1" ⟨"I1", "message"⟩,
           .itemCreated none ⟨"I1", "message"⟩,
           .outputItemDone "R1" ⟨"I1", "message"⟩,
           .responseDone ⟨"R1", "completed"⟩]⟩ =
      (.yieldMessageItem "R1" ⟨"I1", "message"⟩ none, ⟨⟨"R1", "in_progress"⟩, false⟩,
        ⟨none, [],
          [.outputItemDone "R1" ⟨"I1", "message"⟩,
           .responseDone ⟨"R1", "completed"⟩]⟩) ∧
    rt_response_anext ⟨⟨"R1", "in_progress"⟩, false⟩
        ⟨none, [],
          [.outputItemDone "R1" ⟨"I1", "message"⟩,
           .responseDone ⟨"R1", "completed"⟩]⟩ =
      (.stopIteration, ⟨⟨"R1", "completed"⟩, true⟩,
        ⟨none, [.outputItemDone "R1" ⟨"I1", "message"⟩], []⟩) ∧
    (⟨"R1", "completed"⟩ : RResponse).status = "completed" := by
  refine ⟨?_, ?_, ?_, rfl⟩ <;> decide

theorem transcript_msg_class (m : SMsg) (h : transcript_chunks_predicate m = true) :
    audio_chunks_predicate m = false ∧ content_end_predicate m = false ∧
      content_error_predicate m = false := by
  cases m <;> simp_all [transcript_chunks_predicate, audio_chunks_predicate,
    content_end_predicate, content_error_predicate, msgType]

theorem audio_msg_class (m : SMsg) (h : audio_chunks_predicate m = true) :
    transcript_chunks_predicate m = false ∧ content_end_predicate m = false ∧
      content_error_predicate m = false := by
  cases m <;> simp_all [transcript_chunks_predicate, audio_chunks_predicate,
    content_end_predicate, content_error_predicate, msgType]

theorem audio_msg_shape (m : SMsg) (h : audio_chunks_predicate m = true) :
    (∃ i c d, m = .audioDelta i c d) ∨ (∃ i c, m = .audioDone i c) := by
  cases m <;> simp_all [audio_chunks_predicate, msgType]

theorem transcript_msg_shape (m : SMsg) (h : transcript_chunks_predicate m = true) :
    (∃ i c d, m = .audioTranscriptDelta i c d) ∨ (∃ i c, m = .audioTranscriptDone i c) := by
  cases m <;> simp_all [transcript_chunks_predicate, msgType]

theorem content_part_done_preds (iid : String) (idx : Nat) (part : RPart) :
    content_end_predicate (.contentPartDone iid idx part) = true ∧
      audio_chunks_predicate (.contentPartDone iid idx part) = false ∧
      transcript_chunks_predicate (.contentPartDone iid idx part) = false ∧
      content_error_predicate (.contentPartDone iid idx part) = false := by
  refine ⟨rfl, rfl, rfl, rfl⟩

theorem seq_scan_none (endP p : SMsg → Bool) (q : List SMsg)
    (h : ∀ x ∈ q, p x = false ∧ endP x = false) : seq_scan endP p q = (none, q) := by
  induction q with
  | nil => rfl
  | cons x rest ih =>
    rcases h x (by simp) with ⟨h1, h2⟩
    have ih' := ih fun y hy => h y (by simp [hy])
    simp only [seq_scan, h1, h2, Bool.false_eq_true, if_false]
    simp [ih']

theorem seq_receive_shift (errP endP p : SMsg → Bool) (q : List SMsg) (m : SMsg)
    (str : List SMsg) (hq : ∀ x ∈ q, p x = false ∧ endP x = false)
    (hm : errP m = false) (hpm : p m = false) (hem : endP m = false) :
    seq_receive errP endP p ⟨q, m :: str⟩ = seq_receive errP endP p ⟨q ++ [m], str⟩ := by
  have h1 := seq_scan_none endP p q hq
  have h2 : seq_scan endP p (q ++ [m]) = (none, q ++ [m]) := by
    apply seq_scan_none
    intro x hx
    rcases List.mem_append.mp hx with hx | hx
    · exact hq x hx
    · simp only [List.mem_singleton] at hx
      subst hx
      exact ⟨hpm, hem⟩
  simp only [seq_receive, h1, h2]
  simp [seq_pull, hm, hpm, hem]

theorem audio_chunks_run_congr (f : Nat) (s₁ s₂ : SEQState)
    (h : seq_receive content_error_predicate content_end_predicate audio_chunks_predicate s₁ =
      seq_receive content_error_predicate content_end_predicate audio_chunks_predicate s₂) :
    audio_chunks_run (f + 1) s₁ = audio_chunks_run (f + 1) s₂ := by
  simp only [audio_chunks_run]
  rw [h]

theorem transcript_chunks_run_congr (f : Nat) (s₁ s₂ : SEQState)
    (h : seq_receive content_error_predicate content_end_predicate transcript_chunks_predicate s₁ =
      seq_receive content_error_predicate content_end_predicate transcript_chunks_predicate s₂) :
    transcript_chunks_run (f + 1) s₁ = transcript_chunks_run (f + 1) s₂ := by
  simp only [transcript_chunks_run]
  rw [h]

theorem audio_drain_first (part : RPart) (iid : String) (idx : Nat) :
    ∀ (ds q : List SMsg) (fuel : Nat),
      ds.length < fuel →
      (∀ m ∈ ds, part_stream_msg m = true) →
      (∀ m ∈ q, transcript_chunks_predicate m = true) →
      audio_chunks_run fuel ⟨q, ds ++ [.contentPartDone iid idx part]⟩ =
        some (audio_deltas ds, .partDone part,
          ⟨q ++ transcript_msgs ds ++ [.contentPartDone iid idx part], []⟩) := by
  intro ds
  induction ds with
  | nil =>
    intro q fuel hf hds hq
    obtain ⟨f, rfl⟩ : ∃ f, fuel = f + 1 := ⟨fuel - 1, by omega⟩
    have hscan : seq_scan content_end_predicate audio_chunks_predicate q = (none, q) :=
      seq_scan_none _ _ q fun x hx =>
        ⟨(transcript_msg_class x (hq x hx)).1, (transcript_msg_class x (hq x hx)).2.1⟩
    have hrec : seq_receive content_error_predicate content_end_predicate
        audio_chunks_predicate ⟨q, [] ++ [SMsg.contentPartDone iid idx part]⟩ =
        (some (.contentPartDone iid idx part), ⟨q ++ [.contentPartDone iid idx part], []⟩) := by
      have hcpd := content_part_done_preds iid idx part
      simp only [seq_receive, List.nil_append, hscan]
      simp [seq_pull, hcpd.1, hcpd.2.1, hcpd.2.2.2]
    simp only [audio_chunks_run, hrec]
    simp [audio_deltas, transcript_msgs]
  | cons m ds' ih =>
    intro q fuel hf hds hq
    obtain ⟨f, rfl⟩ : ∃ f, fuel = f + 1 := ⟨fuel - 1, by omega⟩
    have hm : part_stream_msg m = true := hds m (by simp)
    have hds' : ∀ x ∈ ds', part_stream_msg x = true := fun x hx => hds x (by simp [hx])
    have hstep : (m :: ds') ++ [SMsg.contentPartDone iid idx part] =
        m :: (ds' ++ [SMsg.contentPartDone iid idx part]) := rfl
    by_cases ha : audio_chunks_predicate m = true
    · have hscan : seq_scan content_end_predicate audio_chunks_predicate q = (none, q) :=
        seq_scan_none _ _ q fun x hx =>
          ⟨(transcript_msg_class x (hq x hx)).1, (transcript_msg_class x (hq x hx)).2.1⟩
      have hrec : seq_receive content_error_predicate content_end_predicate
          audio_chunks_predicate ⟨q, (m :: ds') ++ [SMsg.contentPartDone iid idx part]⟩ =
          (some m, ⟨q, ds' ++ [.contentPartDone iid idx part]⟩) := by
        simp only [hstep, seq_receive, hscan]
        simp [seq_pull, ha]
      have hihq := ih q f (by simp at hf ⊢; omega) hds' hq
      rcases audio_msg_shape m ha with ⟨i, c, d, rfl⟩ | ⟨i, c, rfl⟩
      · simp only [audio_chunks_run, hrec, hihq]
        simp [audio_deltas, transcript_msgs, transcript_chunks_predicate, msgType]
      · simp only [audio_chunks_run, hrec, hihq]
        simp [audio_deltas, transcript_msgs, transcript_chunks_predicate, msgType]
    · have ht : transcript_chunks_predicate m = true := by
        simp only [part_stream_msg, Bool.or_eq_true] at hm
        rcases hm with hm | hm
        · exact absurd hm ha
        · exact hm
      have hshift := seq_receive_shift content_error_predicate content_end_predicate
        audio_chunks_predicate q m (ds' ++ [.contentPartDone iid idx part])
        (fun x hx => ⟨(transcript_msg_class x (hq x hx)).1, (transcript_msg_class x (hq x hx)).2.1⟩)
        (transcript_msg_class m ht).2.2 (transcript_msg_class m ht).1
        (transcript_msg_class m ht).2.1
      have hcong := audio_chunks_run_congr f _ _ hshift
      rw [hstep, hcong]
      have hq' : ∀ x ∈ q ++ [m], transcript_chunks_predicate x = true := by
        intro x hx
        rcases List.mem_append.mp hx with hx | hx
        · exact hq x hx
        · simp only [List.mem_singleton] at hx
          subst hx
          exact ht
      rw [ih (q ++ [m]) (f + 1) (by simp at hf ⊢; omega) hds' hq']
      rcases transcript_msg_shape m ht with ⟨i, c, d, rfl⟩ | ⟨i, c, rfl⟩
      · simp [audio_deltas, transcript_msgs, transcript_chunks_predicate, msgType]
      · simp [audio_deltas, transcript_msgs, transcript_chunks_predicate, msgType]

theorem transcript_drain_second (part : RPart) (iid : String) (idx : Nat) :
    ∀ (q : List SMsg) (fuel : Nat), q.length < fuel →
      (∀ m ∈ q, transcript_chunks_predicate m = true) →
      transcript_chunks_run fuel ⟨q ++ [.contentPartDone iid idx part], []⟩ =
        some (transcript_deltas q, .partDone part,
          ⟨[.contentPartDone iid idx part], []⟩) := by
  intro q
  induction q with
  | nil =>
    intro fuel hf hq
    obtain ⟨f, rfl⟩ : ∃ f, fuel = f + 1 := ⟨fuel - 1, by omega⟩
    have hcpd := content_part_done_preds iid idx part
    have hrec : seq_receive content_error_predicate content_end_predicate
        transcript_chunks_predicate ⟨[] ++ [SMsg.contentPartDone iid idx part], []⟩ =
        (some (.contentPartDone iid idx part), ⟨[.contentPartDone iid idx part], []⟩) := by
      simp only [seq_receive, List.nil_append]
      simp [seq_scan, hcpd.1, hcpd.2.2.1]
    simp only [transcript_chunks_run, hrec]
    simp [transcript_deltas]
  | cons t q' ih =>
    intro fuel hf hq
    obtain ⟨f, rfl⟩ : ∃ f, fuel = f + 1 := ⟨fuel - 1, by omega⟩
    have htc : transcript_chunks_predicate t = true := hq t (by simp)
    have hrec : seq_receive content_error_predicate content_end_predicate
        transcript_chunks_predicate ⟨(t :: q') ++ [SMsg.contentPartDone iid idx part], []⟩ =
        (some t, ⟨q' ++ [.contentPartDone iid idx part], []⟩) := by
      simp only [List.cons_append, seq_receive]
      simp [seq_scan, htc]
    have hih := ih f (by simp at hf ⊢; omega) fun x hx => hq x (by simp [hx])
    rcases transcript_msg_shape t htc with ⟨i, c, d, rfl⟩ | ⟨i, c, rfl⟩
    · simp only [transcript_chunks_run, hrec, hih]
      simp [transcript_deltas]
    · simp only [transcript_chunks_run, hrec, hih]
      simp [transcript_deltas]

theorem transcript_drain_first (part : RPart) (iid : String) (idx : Nat) :
    ∀ (ds q : List SMsg) (fuel : Nat),
      ds.length < fuel →
      (∀ m ∈ ds, part_stream_msg m = true) →
      (∀ m ∈ q, audio_chunks_predicate m = true) →
      transcript_chunks_run fuel ⟨q, ds ++ [.contentPartDone iid idx part]⟩ =
        some (transcript_deltas ds, .partDone part,
          ⟨q ++ audio_msgs ds ++ [.contentPartDone iid idx part], []⟩) := by
  intro ds
  induction ds with
  | nil =>
    intro q fuel hf hds hq
    obtain ⟨f, rfl⟩ : ∃ f, fuel = f + 1 := ⟨fuel - 1, by omega⟩
    have hscan : seq_scan content_end_predicate transcript_chunks_predicate q = (none, q) :=
      seq_scan_none _ _ q fun x hx =>
        ⟨(audio_msg_class x (hq x hx)).1, (audio_msg_class x (hq x hx)).2.1⟩
    have hrec : seq_receive content_error_predicate content_end_predicate
        transcript_chunks_predicate ⟨q, [] ++ [SMsg.contentPartDone iid idx part]⟩ =
        (some (.contentPartDone iid idx part), ⟨q ++ [.contentPartDone iid idx part], []⟩) := by
      have hcpd := content_part_done_preds iid idx part
      simp only [seq_receive, List.nil_append, hscan]
      simp [seq_pull, hcpd.1, hcpd.2.2.1, hcpd.2.2.2]
    simp only [transcript_chunks_run, hrec]
    simp [transcript_deltas, audio_msgs]
  | cons m ds' ih =>
    intro q fuel hf hds hq
    obtain ⟨f, rfl⟩ : ∃ f, fuel = f + 1 := ⟨fuel - 1, by omega⟩
    have hm : part_stream_msg m = true := hds m (by simp)
    have hds' : ∀ x ∈ ds', part_stream_msg x = true := fun x hx => hds x (by simp [hx])
    have hstep : (m :: ds') ++ [SMsg.contentPartDone iid idx part] =
        m :: (ds' ++ [SMsg.contentPartDone iid idx part]) := rfl
    by_cases ht : transcript_chunks_predicate m = true
    · have hscan : seq_scan content_end_predicate transcript_chunks_predicate q = (none, q) :=
        seq_scan_none _ _ q fun x hx =>
          ⟨(audio_msg_class x (hq x hx)).1, (audio_msg_class x (hq x hx)).2.1⟩
      have hrec : seq_receive content_error_predicate content_end_predicate
          transcript_chunks_predicate ⟨q, (m :: ds') ++ [SMsg.contentPartDone iid idx part]⟩ =
          (some m, ⟨q, ds' ++ [.contentPartDone iid idx part]⟩) := by
        simp only [hstep, seq_receive, hscan]
        simp [seq_pull, ht]
      have hihq := ih q f (by simp at hf ⊢; omega) hds' hq
      rcases transcript_msg_shape m ht with ⟨i, c, d, rfl⟩ | ⟨i, c, rfl⟩
      · simp only [transcript_chunks_run, hrec, hihq]
        simp [transcript_deltas, audio_msgs, audio_chunks_predicate, msgType]
      · simp only [transcript_chunks_run, hrec, hihq]
        simp [transcript_deltas, audio_msgs, audio_chunks_predicate, msgType]
    · have ha : audio_chunks_predicate m = true := by
        simp only [part_stream_msg, Bool.or_eq_true] at hm
        rcases hm with hm | hm
        · exact hm
        · exact absurd hm ht
      have hshift := seq_receive_shift content_error_predicate content_end_predicate
        transcript_chunks_predicate q m (ds' ++ [.contentPartDone iid idx part])
        (fun x hx => ⟨(audio_msg_class x (hq x hx)).1, (audio_msg_class x (hq x hx)).2.1⟩)
        (audio_msg_class m ha).2.2 (audio_msg_class m ha).1
        (audio_msg_class m ha).2.1
      have hcong := transcript_chunks_run_congr f _ _ hshift
      rw [hstep, hcong]
      have hq' : ∀ x ∈ q ++ [m], audio_chunks_predicate x = true := by
        intro x hx
        rcases List.mem_append.mp hx with hx | hx
        · exact hq x hx
        · simp only [List.mem_singleton] at hx
          subst hx
          exact ha
      rw [ih (q ++ [m]) (f + 1) (by simp at hf ⊢; omega) hds' hq']
      rcases audio_msg_shape m ha with ⟨i, c, d, rfl⟩ | ⟨i, c, rfl⟩
      · simp [transcript_deltas, audio_msgs, audio_chunks_predicate, msgType]
      · simp [transcript_deltas, audio_msgs, audio_chunks_predicate, msgType]

theorem audio_drain_second (part : RPart) (iid : String) (idx : Nat) :
    ∀ (q : List SMsg) (fuel : Nat), q.length < fuel →
      (∀ m ∈ q, audio_chunks_predicate m = true) →
      audio_chunks_run fuel ⟨q ++ [.contentPartDone iid idx part], []⟩ =
        some (audio_deltas q, .partDone part,
          ⟨[.contentPartDone iid idx part], []⟩) := by
  intro q
  induction q with
  | nil =>
    intro fuel hf hq
    obtain ⟨f, rfl⟩ : ∃ f, fuel = f + 1 := ⟨fuel - 1, by omega⟩
    have hcpd := content_part_done_preds iid idx part
    have hrec : seq_receive content_error_predicate content_end_predicate
        audio_chunks_predicate ⟨[] ++ [SMsg.contentPartDone iid idx part], []⟩ =
        (some (.contentPartDone iid idx part), ⟨[.contentPartDone iid idx part], []⟩) := by
      simp only [seq_receive, List.nil_append]
      simp [seq_scan, hcpd.1, hcpd.2.1]
    simp only [audio_chunks_run, hrec]
    simp [audio_deltas]
  | cons t q' ih =>
    intro fuel hf hq
    obtain ⟨f, rfl⟩ : ∃ f, fuel = f + 1 := ⟨fuel - 1, by omega⟩
    have hac : audio_chunks_predicate t = true := hq t (by simp)
    have hrec : seq_receive content_error_predicate content_end_predicate
        audio_chunks_predicate ⟨(t :: q') ++ [SMsg.contentPartDone iid idx part], []⟩ =
        (some t, ⟨q' ++ [.contentPartDone iid idx part], []⟩) := by
      simp only [List.cons_append, seq_receive]
      simp [seq_scan, hac]
    have hih := ih f (by simp at hf ⊢; omega) fun x hx => hq x (by simp [hx])
    rcases audio_msg_shape t hac with ⟨i, c, d, rfl⟩ | ⟨i, c, rfl⟩
    · simp only [audio_chunks_run, hrec, hih]
      simp [audio_deltas]
    · simp only [audio_chunks_run, hrec, hih]
      simp [audio_deltas]

theorem transcript_deltas_filter (l : List SMsg) :
    transcript_deltas (transcript_msgs l) = transcript_deltas l := by
  induction l with
  | nil => rfl
  | cons m rest ih =>
    cases m <;>
      simp_all [transcript_msgs, transcript_deltas, List.filter_cons,
        transcript_chunks_predicate, msgType]

theorem audio_deltas_filter (l : List SMsg) :
    audio_deltas (audio_msgs l) = audio_deltas l := by
  induction l with
  | nil => rfl
  | cons m rest ih =>
    cases m <;>
      simp_all [audio_msgs, audio_deltas, List.filter_cons,
        audio_chunks_predicate, msgType]

/-- Claim C8: the two sub-streams of an audio content part share the
terminal `response.content_part.done` event through the `SharedEndQueue`.
For every delta stream ending with that terminal event and regardless of
which sub-stream is driven first, the queue caches the terminal event on
first observation, each sub-stream observes completion exactly once
(outcome `partDone`, reached with the stated fuel, so neither blocks), and
each yields exactly its own deltas. -/
theorem shared_end_both_substreams (part : RPart) (iid : String) (idx : Nat)
    (ds : List SMsg) (h : ∀ m ∈ ds, part_stream_msg m = true) :
    (audio_chunks_run (ds.length + 1) ⟨[], ds ++ [.contentPartDone iid idx part]⟩ =
      some (audio_deltas ds, .partDone part,
        ⟨transcript_msgs ds ++ [.contentPartDone iid idx part], []⟩) ∧
     transcript_chunks_run ((transcript_msgs ds).length + 1)
        ⟨transcript_msgs ds ++ [.contentPartDone iid idx part], []⟩ =
      some (transcript_deltas ds, .partDone part,
        ⟨[.contentPartDone iid idx part], []⟩)) ∧
    (transcript_chunks_run (ds.length + 1) ⟨[], ds ++ [.contentPartDone iid idx part]⟩ =
      some (transcript_deltas ds, .partDone part,
        ⟨audio_msgs ds ++ [.contentPartDone iid idx part], []⟩) ∧
     audio_chunks_run ((audio_msgs ds).length + 1)
        ⟨audio_msgs ds ++ [.contentPartDone iid idx part], []⟩ =
      some (audio_deltas ds, .partDone part,
        ⟨[.contentPartDone iid idx part], []⟩)) := by
  refine ⟨⟨?_, ?_⟩, ?_, ?_⟩
  · simpa using
      audio_drain_first part iid idx ds [] (ds.length + 1) (by omega) h (by simp)
  · rw [← transcript_deltas_filter ds]
    exact transcript_drain_second part iid idx (transcript_msgs ds)
      ((transcript_msgs ds).length + 1) (by omega)
      fun x hx => (List.mem_filter.mp hx).2
  · simpa using
      transcript_drain_first part iid idx ds [] (ds.length + 1) (by omega) h (by simp)
  · rw [← audio_deltas_filter ds]
    exact audio_drain_second part iid idx (audio_msgs ds)
      ((audio_msgs ds).length + 1) (by omega)
      fun x hx => (List.mem_filter.mp hx).2

theorem shared_end_both_substreams_witness :
    (∀ m ∈ [SMsg.audioDelta "I1" 0 "a1", SMsg.audioTranscriptDelta "I1" 0 "t1",
        SMsg.audioDone "I1" 0, SMsg.audioTranscriptDone "I1" 0],
      part_stream_msg m = true) ∧
    audio_chunks_run 5
        ⟨[], [SMsg.audioDelta "I1" 0 "a1", SMsg.audioTranscriptDelta "I1" 0 "t1",
          SMsg.audioDone "I1" 0, SMsg.audioTranscriptDone "I1" 0,
          SMsg.contentPartDone "I1" 0 ⟨"audio", "", "t1"⟩]⟩ =
      some (["a1"], .partDone ⟨"audio", "", "t1"⟩,
        ⟨[SMsg.audioTranscriptDelta "I1" 0 "t1", SMsg.audioTranscriptDone "I1" 0,
          SMsg.contentPartDone "I1" 0 ⟨"audio", "", "t1"⟩], []⟩) ∧
    transcript_chunks_run 3
        ⟨[SMsg.audioTranscriptDelta "I1" 0 "t1", SMsg.audioTranscriptDone "I1" 0,
          SMsg.contentPartDone "I1" 0 ⟨"audio", "", "t1"⟩], []⟩ =
      some (["t1"], .partDone ⟨"audio", "", "t1"⟩,
        ⟨[SMsg.contentPartDone "I1" 0 ⟨"audio", "", "t1"⟩], []⟩) :=
  ⟨by decide,
   (shared_end_both_substreams ⟨"audio", "", "t1"⟩ "I1" 0
      [SMsg.audioDelta "I1" 0 "a1", SMsg.audioTranscriptDelta "I1" 0 "t1",
        SMsg.audioDone "I1" 0, SMsg.audioTranscriptDone "I1" 0] (by decide)).1.1,
   (shared_end_both_substreams ⟨"audio", "", "t1"⟩ "I1" 0
      [SMsg.audioDelta "I1" 0 "a1", SMsg.audioTranscriptDelta "I1" 0 "t1",
        SMsg.audioDone "I1" 0, SMsg.audioTranscriptDone "I1" 0] (by decide)).1.2⟩

end RtClient
